import Mathlib

set_option autoImplicit false

/-
Verification of the P2774 concurrent container primitives (tls.hpp,
object_pool.hpp, race_free.hpp) against their specification.

The C++ sources are shallowly embedded: the 128-bit tagged-pointer
lock-free stack is modelled at two levels (a chain-level model where the
head pointer is identified with the list of node ids reachable from it,
and a memory-level model with explicit next-pointer and value stores),
the TLS sharded hash map is modelled as a bucket function plus a
traversal spine, and machine tags (std::uintptr_t) are Nat reduced
modulo 2^64.  In the sequential embedding a compare-exchange loop whose
body recomputes the desired value from the freshly observed expected
value always succeeds on the final iteration, so each loop is modelled
by its successful final exchange.
-/

namespace P2774

/-- Modulus of std::uintptr_t tag arithmetic (64-bit platform, enforced by
static_assert(sizeof(void *) == 8) in the sources). -/
def U64 : Nat := 2 ^ 64

/-- Chain-level state of internal::lockfree_stack: the tagged_ptr top_,
with the head pointer identified with the list of node ids reachable
from it through node::next ([] is the null pointer), and the 64-bit tag. -/
structure Stack where
  chain : List Nat
  tag : Nat
  deriving Repr, DecidableEq

/-- internal::handle<T>::~handle (object_pool.hpp): a CAS loop that sets
ptr->next to the observed head and installs {ptr, old.tag + 1}. -/
def handleRelease (s : Stack) (n : Nat) : Stack :=
  { chain := n :: s.chain, tag := (s.tag + 1) % U64 }

/-- internal::snapshot<T>::~snapshot (object_pool.hpp): walks tail from
head without a null check — on a null head the very first dereference
tail->next is a null-pointer dereference, modelled as none.  Otherwise a
CAS loop sets tail->next to the observed head and installs
{head, old.tag + 1}, splicing the whole owned chain back. -/
def snapshotRelease (s : Stack) (c : List Nat) : Option Stack :=
  match c with
  | [] => none
  | _ :: _ => some { chain := c ++ s.chain, tag := (s.tag + 1) % U64 }

/-- object_pool::lease fast path (object_pool.hpp lines 234-241): if the
observed head is non-null, CAS to {head->next, old.tag + 1} and hand the
popped node to a handle. -/
def leasePop (s : Stack) : Option (Nat × Stack) :=
  match s.chain with
  | [] => none
  | n :: rest => some (n, { chain := rest, tag := (s.tag + 1) % U64 })

/-- object_pool::lease_all (object_pool.hpp lines 259-269): while the
observed head is non-null, CAS to {nullptr, old.tag + 1}; the drained
chain (possibly null) seeds the returned snapshot.  On an empty stack no
CAS is performed. -/
def leaseAll (s : Stack) : List Nat × Stack :=
  match s.chain with
  | [] => ([], s)
  | n :: rest => (n :: rest, { chain := [], tag := (s.tag + 1) % U64 })

/-
Memory-level model of the pool (object_pool.hpp): the stack top, the
per-node next pointers and values, and the block-list head.  Node
addresses are Nat; next-pointer cells hold Option Nat (none = null).
-/

/-- Memory-level pool state: lockfree_stack top (head pointer and tag),
the next field of every node, the T value of every node, and the list of
registered block base addresses (the blocks list, head first). -/
structure PoolMem where
  top : Option Nat
  tag : Nat
  next : Nat → Option Nat
  val : Nat → Nat
  blocks : List Nat

/-- The for-loop of object_pool::allocate_new_block (object_pool.hpp
line 205): for(i = 1; i < K; ++i) nodes[i].next = nodes + i + 1, writing
the block-local links in index order (the final write at i = K-1 dangles
one past the block and is overwritten immediately afterwards). -/
def linkLoop (base K : Nat) (i : Nat) (next : Nat → Option Nat) : Nat → Option Nat :=
  if i < K then
    linkLoop base K (i + 1) (Function.update next (base + i) (some (base + i + 1)))
  else next
termination_by K - i

/-- object_pool::allocate_new_block (object_pool.hpp lines 195-216),
success path, called under the lock with the observed (null-headed)
tagged_ptr old: registers the freshly constructed block (whose K nodes
live at addresses base..base+K-1 and are default-constructed), links
nodes 1..K-1 in index order, attaches old.head after node K-1, publishes
nodes+1 with tag old.tag + 1, and returns node 0 for the caller's
handle. -/
def allocateNewBlock (st : PoolMem) (old : Option Nat × Nat) (base K dflt : Nat) :
    PoolMem × Nat :=
  let next1 := linkLoop base K 1 st.next
  let next2 := Function.update next1 (base + (K - 1)) old.1
  ({ top := some (base + 1)
     tag := (old.2 + 1) % U64
     next := next2
     val := fun m => if base ≤ m ∧ m < base + K then dflt else st.val m
     blocks := base :: st.blocks },
   base)

/-- Chain of node ids reachable from a head pointer through the next
store, cut off by fuel. -/
def chainOf (next : Nat → Option Nat) : Option Nat → Nat → List Nat
  | none, _ => []
  | some _, 0 => []
  | some n, fuel + 1 => n :: chainOf next (next n) fuel

/-- Memory-level handle destructor (object_pool.hpp lines 125-132): the
only node field written is ptr->next; the value field of every node is
untouched. -/
def memHandleRelease (st : PoolMem) (n : Nat) : PoolMem :=
  { st with
    top := some n
    tag := (st.tag + 1) % U64
    next := Function.update st.next n st.top }

/-- Memory-level lease fast path (object_pool.hpp lines 234-241): pops
the head node; no node field is written at all. -/
def memLeasePop (st : PoolMem) : Option (Nat × PoolMem) :=
  match st.top with
  | none => none
  | some h => some (h, { st with top := st.next h, tag := (st.tag + 1) % U64 })

/- Helper lemmas for linkLoop. -/

theorem linkLoop_out (base K : Nat) :
    ∀ (d i : Nat), K - i = d → ∀ (next : Nat → Option Nat) (m : Nat),
      (m < base + i ∨ base + K ≤ m) → linkLoop base K i next m = next m := by
  intro d
  induction d with
  | zero =>
    intro i hi next m _
    unfold linkLoop
    rw [if_neg (by omega)]
  | succ d ih =>
    intro i hi next m hm
    unfold linkLoop
    by_cases h : i < K
    · rw [if_pos h, ih (i + 1) (by omega) _ m (by omega),
        Function.update_noteq (by omega)]
    · rw [if_neg h]

theorem linkLoop_in (base K : Nat) :
    ∀ (d i : Nat), K - i = d → ∀ (j : Nat) (next : Nat → Option Nat),
      i ≤ j → j < K → linkLoop base K i next (base + j) = some (base + j + 1) := by
  intro d
  induction d with
  | zero =>
    intro i hi j next hij hj
    omega
  | succ d ih =>
    intro i hi j next hij hj
    have h : i < K := by omega
    unfold linkLoop
    rw [if_pos h]
    rcases Nat.eq_or_lt_of_le hij with heq | hlt
    · subst heq
      rw [linkLoop_out base K (K - (i + 1)) (i + 1) rfl _ _ (by omega),
        Function.update_same]
    · rw [ih (i + 1) (by omega) j _ (by omega) hj]

theorem chainOf_fuel_zero (next : Nat → Option Nat) (x : Option Nat) :
    chainOf next x 0 = [] := by
  cases x <;> rfl

theorem allocate_next_eq (st : PoolMem) (old : Option Nat × Nat) (base K dflt i : Nat)
    (h1 : 1 ≤ i) (h2 : i + 1 < K) :
    (allocateNewBlock st old base K dflt).1.next (base + i) = some (base + i + 1) := by
  show Function.update (linkLoop base K 1 st.next) (base + (K - 1)) old.1 (base + i)
      = some (base + i + 1)
  rw [Function.update_noteq (by omega),
    linkLoop_in base K (K - 1) 1 (by omega) i _ h1 (by omega)]

theorem allocate_chain_segment (st : PoolMem) (old : Option Nat × Nat) (base K dflt : Nat) :
    ∀ (d i : Nat), 1 ≤ i → i + d = K →
      chainOf (allocateNewBlock st old base K dflt).1.next (some (base + i)) d
        = (List.range d).map (fun j => base + i + j) := by
  intro d
  induction d with
  | zero =>
    intro i _ _
    exact chainOf_fuel_zero _ _
  | succ d ih =>
    intro i h1 h2
    rw [chainOf]
    cases d with
    | zero =>
      rw [chainOf_fuel_zero]
      simp [List.range_succ]
    | succ d2 =>
      rw [allocate_next_eq st old base K dflt i h1 (by omega),
        show base + i + 1 = base + (i + 1) from by omega,
        ih (i + 1) (by omega) (by omega)]
      conv_rhs => rw [List.range_succ_eq_map]
      rw [List.map_cons, List.map_map]
      refine congrArg₂ _ (by omega) (List.map_congr_left fun j _ => ?_)
      show base + (i + 1) + j = base + i + (j + 1)
      omega

/-- C4: when lease() on an empty stack allocates a block of K nodes (at
addresses base..base+K-1), it links nodes 1..K-1 through their next
fields in index order, attaches the previous stack head after node K-1,
publishes node 1 as the new stack top with the incremented tag — so the
chain reachable from the new top starts with exactly the K-1 new nodes
1..K-1 in index order — registers the block, returns a handle owning
node 0, and leaves the next field of every node outside the new block
untouched. -/
theorem c4_allocate_new_block (st : PoolMem) (old : Option Nat × Nat) (base K dflt : Nat)
    (hK : 2 ≤ K) :
    (∀ i, 1 ≤ i → i + 1 < K →
      (allocateNewBlock st old base K dflt).1.next (base + i) = some (base + i + 1)) ∧
    (allocateNewBlock st old base K dflt).1.next (base + (K - 1)) = old.1 ∧
    (allocateNewBlock st old base K dflt).1.top = some (base + 1) ∧
    (allocateNewBlock st old base K dflt).2 = base ∧
    chainOf (allocateNewBlock st old base K dflt).1.next (some (base + 1)) (K - 1)
      = (List.range (K - 1)).map (fun j => base + 1 + j) ∧
    (∀ m, m < base ∨ base + K ≤ m →
      (allocateNewBlock st old base K dflt).1.next m = st.next m) ∧
    (allocateNewBlock st old base K dflt).1.tag = (old.2 + 1) % U64 ∧
    (allocateNewBlock st old base K dflt).1.blocks = base :: st.blocks := by
  refine ⟨allocate_next_eq st old base K dflt, ?_, rfl, rfl, ?_, ?_, rfl, rfl⟩
  · exact Function.update_same _ _ _
  · exact allocate_chain_segment st old base K dflt (K - 1) 1 le_rfl (by omega)
  · intro m hm
    show Function.update (linkLoop base K 1 st.next) (base + (K - 1)) old.1 m = st.next m
    rw [Function.update_noteq (by omega),
      linkLoop_out base K (K - 1) 1 (by omega) st.next m (by omega)]

/-- Witness for c4_allocate_new_block at K = 3, base = 100: node 101 is
published as top, its chain is [101, 102], node 102 points at the old
head, and the handle owns node 100. -/
theorem c4_allocate_new_block_witness :
    (allocateNewBlock ⟨none, 0, fun _ => none, fun _ => 0, []⟩ (none, 7) 100 3 0).1.top
        = some 101 ∧
    chainOf (allocateNewBlock ⟨none, 0, fun _ => none, fun _ => 0, []⟩ (none, 7) 100 3 0).1.next
        (some 101) 2 = [101, 102] ∧
    (allocateNewBlock ⟨none, 0, fun _ => none, fun _ => 0, []⟩ (none, 7) 100 3 0).2 = 100 := by
  have h := c4_allocate_new_block ⟨none, 0, fun _ => none, fun _ => 0, []⟩ (none, 7) 100 3 0
    (by decide)
  exact ⟨h.2.2.1, by rw [h.2.2.2.2.1]; rfl, h.2.2.2.1⟩

/-- C2: object_pool::lease_all removes every available node from the
stack (leaving the head null) and destroying the returned snapshot
pushes exactly the drained chain back, restoring the pre-drain nodes —
proved for every non-empty pool.  On the EMPTY pool, however,
lease_all() returns a snapshot with a null head and
snapshot::~snapshot walks tail->next from that null head without any
check: a null-pointer dereference (modelled as none) instead of the
claimed restoring push, so the claim fails there. -/
theorem c2_lease_all_roundtrip :
    (∀ (n t : Nat) (rest : List Nat),
      (leaseAll ⟨n :: rest, t⟩).2.chain = [] ∧
      (snapshotRelease (leaseAll ⟨n :: rest, t⟩).2 (leaseAll ⟨n :: rest, t⟩).1).map
          Stack.chain = some (n :: rest)) ∧
    (∀ t : Nat,
      (leaseAll ⟨[], t⟩).2.chain = [] ∧
      snapshotRelease (leaseAll ⟨[], t⟩).2 (leaseAll ⟨[], t⟩).1 = none) := by
  constructor
  · intro n t rest
    exact ⟨rfl, by simp [leaseAll, snapshotRelease]⟩
  · intro t
    exact ⟨rfl, rfl⟩

/-- C3 counterexample: the claim says every successful compare_exchange
installs a tag exactly one greater than the tag of the snapshot it
replaces, but the tag is a std::uintptr_t and old.tag + 1 is computed
modulo 2^64: when a handle is released into a stack whose tag is
2^64 - 1 the installed tag is 0, not 2^64. -/
theorem c3_tag_wrap_counterexample :
    (handleRelease ⟨[], U64 - 1⟩ 5).tag ≠ (U64 - 1) + 1 := by
  show ((U64 - 1) + 1) % U64 ≠ (U64 - 1) + 1
  decide

/-- C3 (amended): every successful compare_exchange performed by the
pool family — handle release, snapshot release, lease pop, lease_all
drain, and block publication — installs a tag equal to
(replaced tag + 1) mod 2^64, hence exactly one greater than the replaced
tag whenever the increment does not wrap 64-bit arithmetic. -/
theorem c3_tag_increment :
    ∀ (s : Stack) (st : PoolMem) (n base K dflt : Nat) (c rest : List Nat)
      (old : Option Nat × Nat),
      (handleRelease s n).tag = (s.tag + 1) % U64 ∧
      (snapshotRelease s (n :: c)).map Stack.tag = some ((s.tag + 1) % U64) ∧
      (leasePop ⟨n :: rest, s.tag⟩).map (fun p => p.2.tag) = some ((s.tag + 1) % U64) ∧
      (leaseAll ⟨n :: rest, s.tag⟩).2.tag = (s.tag + 1) % U64 ∧
      (allocateNewBlock st old base K dflt).1.tag = (old.2 + 1) % U64 ∧
      (s.tag + 1 < U64 → (handleRelease s n).tag = s.tag + 1) := by
  intro s st n base K dflt c rest old
  refine ⟨rfl, rfl, rfl, rfl, rfl, fun h => ?_⟩
  show (s.tag + 1) % U64 = s.tag + 1
  exact Nat.mod_eq_of_lt h

/-- Witness for c3_tag_increment at a concrete input: releasing a handle
into a stack with tag 3 installs tag 4. -/
theorem c3_tag_increment_witness :
    (handleRelease ⟨[], 3⟩ 5).tag = 3 + 1 :=
  (c3_tag_increment ⟨[], 3⟩ ⟨none, 0, fun _ => none, fun _ => 0, []⟩ 5 0 2 0 [] []
    (none, 0)).2.2.2.2.2 (by decide)

/-- object_pool::lease_all at memory level: drains the stack top (no
node field is written). -/
def memLeaseAll (st : PoolMem) : Option Nat × PoolMem :=
  match st.top with
  | none => (none, st)
  | some h => (some h, { st with top := none, tag := (st.tag + 1) % U64 })

/-- Tail of the chain starting at n (snapshot::~snapshot tail walk),
cut off by fuel. -/
def lastOf (next : Nat → Option Nat) (n : Nat) : Nat → Nat
  | 0 => n
  | fuel + 1 =>
    match next n with
    | none => n
    | some m => lastOf next m fuel

/-- snapshot::~snapshot at memory level (non-null head): walks to the
tail and writes only tail->next before publishing head as the top. -/
def memSnapshotRelease (st : PoolMem) (head fuel : Nat) : PoolMem :=
  { st with
    top := some head
    tag := (st.tag + 1) % U64
    next := Function.update st.next (lastOf st.next head fuel) st.top }

/-- The operations the pool family performs on shared memory. -/
inductive PoolOp where
  | release (n : Nat)
  | pop
  | drain
  | snapRelease (head fuel : Nat)
  | alloc (old : Option Nat × Nat) (base K dflt : Nat)

/-- One pool operation as a memory transformer. -/
def applyOp (st : PoolMem) : PoolOp → PoolMem
  | .release n => memHandleRelease st n
  | .pop =>
    match memLeasePop st with
    | none => st
    | some (_, st2) => st2
  | .drain => (memLeaseAll st).2
  | .snapRelease h fuel => memSnapshotRelease st h fuel
  | .alloc old base K dflt => (allocateNewBlock st old base K dflt).1

/-- A sequence of pool operations. -/
def applyOps (st : PoolMem) : List PoolOp → PoolMem
  | [] => st
  | op :: ops => applyOps (applyOp st op) ops

/-- The only writes any pool operation performs to a value slot: block
allocation default-constructs the K freshly created nodes. -/
def allocWrites (n : Nat) : PoolOp → Prop
  | .alloc _ base K _ => base ≤ n ∧ n < base + K
  | _ => False

theorem applyOp_val_frame (st : PoolMem) (op : PoolOp) (n : Nat)
    (h : ¬ allocWrites n op) : (applyOp st op).val n = st.val n := by
  cases op with
  | release m => rfl
  | pop =>
    show (match memLeasePop st with | none => st | some (_, st2) => st2).val n = st.val n
    unfold memLeasePop
    cases st.top <;> rfl
  | drain =>
    show (memLeaseAll st).2.val n = st.val n
    unfold memLeaseAll
    cases st.top <;> rfl
  | snapRelease hd fuel => rfl
  | alloc old base K dflt =>
    show (if base ≤ n ∧ n < base + K then dflt else st.val n) = st.val n
    exact if_neg h

/-- C10: the handle destructor writes only its node's next link (the
value field of every node, and the next field of every other node, are
untouched); leasing again immediately after a release hands out the very
same node with exactly the value present at the release; block
construction default-constructs exactly the K fresh nodes of the new
block; and across any sequence of pool operations the value field of a
node is never modified except by the block allocation that creates it. -/
theorem c10_release_lease_value_frame :
    (∀ (st : PoolMem) (n m : Nat),
      (memHandleRelease st n).val m = st.val m ∧
      (m ≠ n → (memHandleRelease st n).next m = st.next m)) ∧
    (∀ (st : PoolMem) (n : Nat),
      (memLeasePop (memHandleRelease st n)).map (fun p => (p.1, p.2.val p.1))
        = some (n, st.val n)) ∧
    (∀ (st : PoolMem) (old : Option Nat × Nat) (base K dflt n : Nat),
      base ≤ n → n < base + K →
      (allocateNewBlock st old base K dflt).1.val n = dflt) ∧
    (∀ (ops : List PoolOp) (st : PoolMem) (n : Nat),
      (∀ op ∈ ops, ¬ allocWrites n op) → (applyOps st ops).val n = st.val n) := by
  refine ⟨?_, ?_, ?_, ?_⟩
  · intro st n m
    exact ⟨rfl, fun hm => Function.update_noteq hm _ _⟩
  · intro st n
    simp [memHandleRelease, memLeasePop]
  · intro st old base K dflt n h1 h2
    show (if base ≤ n ∧ n < base + K then dflt else st.val n) = dflt
    rw [if_pos ⟨h1, h2⟩]
  · intro ops
    induction ops with
    | nil => intro st n _; rfl
    | cons op ops ih =>
      intro st n h
      show (applyOps (applyOp st op) ops).val n = st.val n
      rw [ih (applyOp st op) n fun o ho => h o (List.mem_cons_of_mem _ ho),
        applyOp_val_frame st op n (h op (List.mem_cons_self _ _))]

/-- Witness for c10_release_lease_value_frame: releasing node 4 into a
concrete pool and leasing again returns node 4 with its value 42, and a
release/pop/drain sequence leaves node 4's value at 42. -/
theorem c10_release_lease_value_frame_witness :
    (memLeasePop (memHandleRelease
        ⟨none, 0, fun _ => none, fun m => if m = 4 then 42 else 0, []⟩ 4)).map
        (fun p => (p.1, p.2.val p.1)) = some (4, 42) ∧
    (applyOps ⟨none, 0, fun _ => none, fun m => if m = 4 then 42 else 0, []⟩
        [.release 4, .pop, .drain]).val 4 = 42 := by
  constructor
  · exact c10_release_lease_value_frame.2.1
      ⟨none, 0, fun _ => none, fun m => if m = 4 then 42 else 0, []⟩ 4
  · rw [c10_release_lease_value_frame.2.2.2
      [.release 4, .pop, .drain]
      ⟨none, 0, fun _ => none, fun m => if m = 4 then 42 else 0, []⟩ 4
      (by intro op hop; fin_cases hop <;> simp [allocWrites])]
    decide

/-
Block geometry (object_pool.hpp lines 47-66, race_free.hpp lines 25-38):
max_block_size = 512, nodes_per_block = (512 - sizeof(void *)) / sizeof(node),
block = { block * next; node nodes[nodes_per_block]; }.
sizeof and alignof of node<T> are modelled abstractly as s and a with the
C++ layout facts: a is a power of two, 8 ≤ a (node holds a pointer
member), a divides s, and sizeof(block) is the array offset (8 rounded
up to a) plus the array extent, rounded up to a multiple of a.
-/

/-- max_block_size (object_pool.hpp line 49). -/
def maxBlockSize : Nat := 512

/-- sizeof(void *), enforced by static_assert in the sources. -/
def ptrSize : Nat := 8

/-- nodes_per_block for node size s (object_pool.hpp line 59). -/
def nodesPerBlock (s : Nat) : Nat := (maxBlockSize - ptrSize) / s

/-- Round x up to the next multiple of a. -/
def roundUp (x a : Nat) : Nat := (x + a - 1) / a * a

/-- sizeof(block<T>) for node size s and node alignment a: the next
pointer occupies the first 8 bytes, the node array starts at the next
a-aligned offset, and the struct size is padded to a multiple of its
alignment a. -/
def blockSize (s a : Nat) : Nat :=
  roundUp (roundUp ptrSize a + nodesPerBlock s * s) a

theorem roundUp_eq_of_dvd (x a : Nat) (ha : 0 < a) (h : a ∣ x) : roundUp x a = x := by
  obtain ⟨q, rfl⟩ := h
  unfold roundUp
  rw [show a * q + a - 1 = a * q + (a - 1) from by omega, Nat.mul_add_div ha,
    Nat.div_eq_of_lt (by omega), Nat.add_zero, Nat.mul_comm]

theorem roundUp_ptr (a : Nat) (h8 : 8 ≤ a) : roundUp ptrSize a = a := by
  unfold roundUp ptrSize
  rw [show 8 + a - 1 = 7 + a from by omega, Nat.add_div_right 7 (by omega),
    Nat.div_eq_of_lt (by omega), Nat.zero_add, Nat.one_mul]

/-- C8: for every node size s and alignment a of a type the pool family
compiles for (a a power of two of at least pointer alignment dividing s,
and the static_assert guard nodes_per_block > 1 holding), nodes_per_block
equals floor((512 - sizeof(pointer)) / sizeof(node)), nodes_per_block is
strictly greater than 1, and sizeof(block) is at most 512 bytes. -/
theorem c8_block_geometry (s a k : Nat) (hs : 0 < s) (ha : a = 2 ^ k) (h8 : 8 ≤ a)
    (hdvd : a ∣ s) (hcompiles : 1 < nodesPerBlock s) :
    nodesPerBlock s = (512 - 8) / s ∧ 1 < nodesPerBlock s ∧ blockSize s a ≤ 512 := by
  refine ⟨rfl, hcompiles, ?_⟩
  have hKs : nodesPerBlock s * s ≤ 504 := Nat.div_mul_le_self 504 s
  have h2s : 2 * s ≤ 504 := by
    have h2 : 2 ≤ 504 / s := hcompiles
    exact (Nat.le_div_iff_mul_le hs).mp h2
  have has : a ≤ s := Nat.le_of_dvd hs hdvd
  have ha512 : a ∣ 512 := by
    have hk9 : k ≤ 9 := by
      by_contra hcon
      have h10 : 2 ^ 10 ≤ 2 ^ k := Nat.pow_le_pow_right (by omega) (by omega)
      omega
    rw [ha, show (512 : Nat) = 2 ^ 9 from by norm_num]
    exact pow_dvd_pow 2 hk9
  have hdvdKs : a ∣ nodesPerBlock s * s := Dvd.dvd.mul_left hdvd _
  have hle : a ≤ 512 - nodesPerBlock s * s :=
    Nat.le_of_dvd (by omega) (Nat.dvd_sub' ha512 hdvdKs)
  unfold blockSize
  rw [roundUp_ptr a h8,
    roundUp_eq_of_dvd _ a (by omega) (Dvd.dvd.add (dvd_refl a) hdvdKs)]
  omega

/-- Witness for c8_block_geometry at the race_free<std::size_t>
instantiation: node = { optional<size_t>; node * }, sizeof 24, alignof 8,
giving nodes_per_block = 21 and a 512-byte block. -/
theorem c8_block_geometry_witness :
    nodesPerBlock 24 = 21 ∧ blockSize 24 8 ≤ 512 :=
  ⟨by decide, (c8_block_geometry 24 8 3 (by decide) (by decide) (by decide)
    (by decide) (by decide)).2.2⟩

/-
Trace model of the tagged-pointer CAS discipline (race_free.cpp
lockfree_stack::compare_exchange and its call sites): states k is the
value of the 128-bit top_ cell after k successful compare-exchanges; a
popper loads (head, tag) at one index and its own CAS at a later index
succeeds exactly when both fields still compare equal.
-/

/-- One successful CAS on the stack top as the pool family performs it:
the installed tag is (replaced tag + 1) mod 2^64 and the chain shrinks
by a pop, grows by a non-empty splice (handle or snapshot release, block
publication), or is drained to null (lease_all). -/
def CasStep (s s2 : Stack) : Prop :=
  s2.tag = (s.tag + 1) % U64 ∧
  ((∃ n, s.chain = n :: s2.chain) ∨
   (∃ c, c ≠ [] ∧ s2.chain = c ++ s.chain) ∨
   (s.chain ≠ [] ∧ s2.chain = []))

/-- A trace of successful CAS operations on one stack: the tag starts in
range and every consecutive pair of states is one successful CAS. -/
def CasTrace (states : Nat → Stack) : Prop :=
  (states 0).tag < U64 ∧ ∀ k, CasStep (states k) (states (k + 1))

theorem mod_succ_eq (x m : Nat) (hm : 1 < m) : (x % m + 1) % m = (x + 1) % m := by
  conv_rhs => rw [Nat.add_mod, Nat.mod_eq_of_lt hm]

theorem casTrace_tag_lt (states : Nat → Stack) (h : CasTrace states) (k : Nat) :
    (states k).tag < U64 := by
  cases k with
  | zero => exact h.1
  | succ k =>
    rw [(h.2 k).1]
    exact Nat.mod_lt _ (by norm_num [U64])

theorem casTrace_tag_eq (states : Nat → Stack) (h : CasTrace states) (k d : Nat) :
    (states (k + d)).tag = ((states k).tag + d) % U64 := by
  induction d with
  | zero =>
    rw [Nat.add_zero, Nat.add_zero]
    exact (Nat.mod_eq_of_lt (casTrace_tag_lt states h k)).symm
  | succ d ih =>
    rw [show k + (d + 1) = k + d + 1 from rfl, (h.2 (k + d)).1, ih,
      mod_succ_eq _ _ (by norm_num [U64]), Nat.add_assoc]

theorem mod_cancel_zero (t d m : Nat) (ht : t < m) (h : (t + d) % m = t) : d % m = 0 := by
  rw [Nat.add_mod, Nat.mod_eq_of_lt ht] at h
  rcases Nat.lt_or_ge (t + d % m) m with hlt | hge
  · rw [Nat.mod_eq_of_lt hlt] at h
    omega
  · have hr : d % m < m := Nat.mod_lt _ (by omega)
    rw [Nat.mod_eq_sub_mod hge, Nat.mod_eq_of_lt (by omega)] at h
    omega

/-- C9 (amended): a pop that loaded head hd with successor tl cannot
install a stale successor provided fewer than 2^64 successful CASes
occur between its load (index i) and its successful CAS (index j): the
tag comparison then forces j = i, so the stack is exactly as loaded, the
recorded successor tl is the current tail, and installing it removes
precisely the popped head — the multiset of nodes in the stack plus the
popped node is preserved, so no node is lost or duplicated. -/
theorem c9_pop_installs_current_tail (states : Nat → Stack) (htr : CasTrace states)
    (i j hd : Nat) (tl : List Nat) (hload : (states i).chain = hd :: tl)
    (hij : i ≤ j) (hwin : j - i < U64) (htag : (states j).tag = (states i).tag) :
    states j = states i ∧ (states j).chain = hd :: tl ∧ tl = (states j).chain.tail ∧
    hd ::ₘ (tl : Multiset Nat) = ((states j).chain : Multiset Nat) := by
  have ht := casTrace_tag_eq states htr i (j - i)
  rw [show i + (j - i) = j from by omega] at ht
  rw [ht] at htag
  have h0 : (j - i) % U64 = 0 :=
    mod_cancel_zero _ _ _ (casTrace_tag_lt states htr i) htag
  have h64 : U64 = 18446744073709551616 := by norm_num [U64]
  rw [h64] at h0
  rw [h64] at hwin
  have hj : j = i := by omega
  subst hj
  exact ⟨rfl, hload, by rw [hload]; rfl, by rw [hload]; exact Multiset.cons_coe hd tl⟩

/-- Witness for c9_pop_installs_current_tail: a two-state alternating
trace in which the pop CASes immediately at its load index. -/
theorem c9_pop_installs_current_tail_witness :
    ((fun k => if k % 2 = 0 then (⟨[1, 2], k % U64⟩ : Stack) else ⟨[2], k % U64⟩) 0).chain
        = 1 :: [2] ∧
    ((fun k => if k % 2 = 0 then (⟨[1, 2], k % U64⟩ : Stack) else ⟨[2], k % U64⟩) 0).chain.tail
        = [2] := by
  have htr : CasTrace
      (fun k => if k % 2 = 0 then (⟨[1, 2], k % U64⟩ : Stack) else ⟨[2], k % U64⟩) := by
    constructor
    · show (if 0 % 2 = 0 then (⟨[1, 2], 0 % U64⟩ : Stack) else ⟨[2], 0 % U64⟩).tag < U64
      norm_num [U64]
    · intro k
      rcases Nat.even_or_odd k with he | ho
      · have hk : k % 2 = 0 := Nat.even_iff.mp he
        have hk1 : (k + 1) % 2 = 1 := by omega
        constructor
        · show (if (k + 1) % 2 = 0 then (⟨[1, 2], (k + 1) % U64⟩ : Stack)
              else ⟨[2], (k + 1) % U64⟩).tag
            = ((if k % 2 = 0 then (⟨[1, 2], k % U64⟩ : Stack) else ⟨[2], k % U64⟩).tag + 1) % U64
          rw [if_neg (by omega), if_pos hk]
          exact (mod_succ_eq k U64 (by norm_num [U64])).symm
        · left
          refine ⟨1, ?_⟩
          show (if k % 2 = 0 then (⟨[1, 2], k % U64⟩ : Stack) else ⟨[2], k % U64⟩).chain
            = 1 :: (if (k + 1) % 2 = 0 then (⟨[1, 2], (k + 1) % U64⟩ : Stack)
              else ⟨[2], (k + 1) % U64⟩).chain
          rw [if_pos hk, if_neg (by omega)]
      · have hk : k % 2 = 1 := Nat.odd_iff.mp ho
        have hk1 : (k + 1) % 2 = 0 := by omega
        constructor
        · show (if (k + 1) % 2 = 0 then (⟨[1, 2], (k + 1) % U64⟩ : Stack)
              else ⟨[2], (k + 1) % U64⟩).tag
            = ((if k % 2 = 0 then (⟨[1, 2], k % U64⟩ : Stack) else ⟨[2], k % U64⟩).tag + 1) % U64
          rw [if_pos hk1, if_neg (by omega)]
          exact (mod_succ_eq k U64 (by norm_num [U64])).symm
        · right; left
          refine ⟨[1], by simp, ?_⟩
          show (if (k + 1) % 2 = 0 then (⟨[1, 2], (k + 1) % U64⟩ : Stack)
              else ⟨[2], (k + 1) % U64⟩).chain
            = [1] ++ (if k % 2 = 0 then (⟨[1, 2], k % U64⟩ : Stack) else ⟨[2], k % U64⟩).chain
          rw [if_pos hk1, if_neg (by omega)]
          rfl
  have h := c9_pop_installs_current_tail
    (fun k => if k % 2 = 0 then (⟨[1, 2], k % U64⟩ : Stack) else ⟨[2], k % U64⟩) htr
    0 0 1 [2] rfl (le_refl 0) (by norm_num [U64]) rfl
  exact ⟨h.2.1, h.2.2.1.symm⟩

/-- A trace exercising the 64-bit tag wrap: a pop loads ⟨[1, 2], 0⟩ at
index 0; node 1 is popped and re-pushed while nodes 3 and 9 circulate,
and after exactly 2^64 successful CASes the top is ⟨[1, 9, 3, 2], 0⟩ —
the same head and (wrapped) tag the popper recorded. -/
def abaTrace : Nat → Stack := fun k =>
  if k = 0 then ⟨[1, 2], 0⟩
  else if k = 1 then ⟨[2], 1⟩
  else if k < U64 then (if k % 2 = 0 then ⟨[3, 2], k % U64⟩ else ⟨[9, 3, 2], k % U64⟩)
  else if k = U64 then ⟨[1, 9, 3, 2], 0⟩
  else if k % 2 = 0 then ⟨[1, 9, 3, 2], k % U64⟩ else ⟨[9, 3, 2], k % U64⟩

theorem abaTrace_mid_even (k : Nat) (h1 : 2 ≤ k) (h2 : k < U64) (h3 : k % 2 = 0) :
    abaTrace k = ⟨[3, 2], k % U64⟩ := by
  unfold abaTrace
  rw [if_neg (by omega), if_neg (by omega), if_pos h2, if_pos h3]

theorem abaTrace_mid_odd (k : Nat) (h1 : 2 ≤ k) (h2 : k < U64) (h3 : k % 2 = 1) :
    abaTrace k = ⟨[9, 3, 2], k % U64⟩ := by
  unfold abaTrace
  rw [if_neg (by omega), if_neg (by omega), if_pos h2, if_neg (by omega)]

theorem abaTrace_at_wrap : abaTrace U64 = ⟨[1, 9, 3, 2], 0⟩ := by
  have h64 : U64 = 18446744073709551616 := by norm_num [U64]
  unfold abaTrace
  rw [if_neg (by omega), if_neg (by omega), if_neg (by omega), if_pos rfl]

theorem abaTrace_late_even (k : Nat) (h1 : U64 < k) (h3 : k % 2 = 0) :
    abaTrace k = ⟨[1, 9, 3, 2], k % U64⟩ := by
  have h64 : U64 = 18446744073709551616 := by norm_num [U64]
  unfold abaTrace
  rw [if_neg (by omega), if_neg (by omega), if_neg (by omega), if_neg (by omega), if_pos h3]

theorem abaTrace_late_odd (k : Nat) (h1 : U64 < k) (h3 : k % 2 = 1) :
    abaTrace k = ⟨[9, 3, 2], k % U64⟩ := by
  have h64 : U64 = 18446744073709551616 := by norm_num [U64]
  unfold abaTrace
  rw [if_neg (by omega), if_neg (by omega), if_neg (by omega), if_neg (by omega),
    if_neg (by omega)]

theorem abaTrace_casTrace : CasTrace abaTrace := by
  have h64 : U64 = 18446744073709551616 := by norm_num [U64]
  have hU : 1 < U64 := by omega
  constructor
  · show (abaTrace 0).tag < U64
    rw [show abaTrace 0 = ⟨[1, 2], 0⟩ from rfl]
    show (0 : Nat) < U64
    omega
  · intro k
    by_cases hk0 : k = 0
    · subst hk0
      refine ⟨?_, Or.inl ⟨1, ?_⟩⟩
      · rw [show abaTrace 1 = ⟨[2], 1⟩ from rfl, show abaTrace 0 = ⟨[1, 2], 0⟩ from rfl]
        show 1 = (0 + 1) % U64
        rw [h64]
      · rw [show abaTrace 1 = ⟨[2], 1⟩ from rfl, show abaTrace 0 = ⟨[1, 2], 0⟩ from rfl]
    · by_cases hk1 : k = 1
      · subst hk1
        rw [show abaTrace 1 = ⟨[2], 1⟩ from rfl, abaTrace_mid_even 2 (by omega) (by omega) rfl]
        refine ⟨?_, Or.inr (Or.inl ⟨[3], by simp, rfl⟩)⟩
        show 2 % U64 = (1 + 1) % U64
        rfl
      · by_cases hmid : k + 1 < U64
        · rcases Nat.even_or_odd k with he | ho
          · have h3 : k % 2 = 0 := Nat.even_iff.mp he
            rw [abaTrace_mid_even k (by omega) (by omega) h3,
              abaTrace_mid_odd (k + 1) (by omega) (by omega) (by omega)]
            exact ⟨(mod_succ_eq k U64 hU).symm, Or.inr (Or.inl ⟨[9], by simp, rfl⟩)⟩
          · have h3 : k % 2 = 1 := Nat.odd_iff.mp ho
            rw [abaTrace_mid_odd k (by omega) (by omega) h3,
              abaTrace_mid_even (k + 1) (by omega) (by omega) (by omega)]
            exact ⟨(mod_succ_eq k U64 hU).symm, Or.inl ⟨9, rfl⟩⟩
        · by_cases hwrap : k + 1 = U64
          · have h3 : k % 2 = 1 := by omega
            rw [abaTrace_mid_odd k (by omega) (by omega) h3, hwrap, abaTrace_at_wrap]
            refine ⟨?_, Or.inr (Or.inl ⟨[1], by simp, rfl⟩)⟩
            show 0 = (k % U64 + 1) % U64
            rw [mod_succ_eq k U64 hU, hwrap, Nat.mod_self]
          · by_cases hat : k = U64
            · subst hat
              rw [abaTrace_at_wrap, abaTrace_late_odd (U64 + 1) (by omega) (by omega)]
              refine ⟨?_, Or.inl ⟨1, rfl⟩⟩
              show (U64 + 1) % U64 = (0 + 1) % U64
              rw [h64]
            · have hlate : U64 < k := by omega
              rcases Nat.even_or_odd k with he | ho
              · have h3 : k % 2 = 0 := Nat.even_iff.mp he
                rw [abaTrace_late_even k hlate h3,
                  abaTrace_late_odd (k + 1) (by omega) (by omega)]
                exact ⟨(mod_succ_eq k U64 hU).symm, Or.inl ⟨1, rfl⟩⟩
              · have h3 : k % 2 = 1 := Nat.odd_iff.mp ho
                rw [abaTrace_late_odd k hlate h3,
                  abaTrace_late_even (k + 1) (by omega) (by omega)]
                exact ⟨(mod_succ_eq k U64 hU).symm, Or.inr (Or.inl ⟨[1], by simp, rfl⟩)⟩

/-- C9 counterexample: with the faithful modulo-2^64 tag, the claim with
no bound on P and N fails: abaTrace is a legal trace of successful
CASes on which a pop that loaded head 1 with recorded successor [2] at
index 0 passes its CAS comparison 2^64 successful CASes later (same
head, same wrapped tag 0), yet the actual tail there is [9, 3, 2] — the
recorded successor is stale, and installing it would lose nodes 9 and 3
even though no handle owns them. -/
theorem c9_aba_wrap_counterexample :
    CasTrace abaTrace ∧
    (abaTrace 0).chain = 1 :: [2] ∧
    (abaTrace U64).tag = (abaTrace 0).tag ∧
    (abaTrace U64).chain.head? = some 1 ∧
    (abaTrace U64).chain.tail ≠ [2] := by
  refine ⟨abaTrace_casTrace, rfl, ?_, ?_, ?_⟩ <;> rw [abaTrace_at_wrap]
  · rfl
  · rfl
  · simp

/-
race_free<T>::iterator_t (race_free.hpp lines 91-142).  A block is a
list of nodes_per_block optional slot values; a block pointer is the
suffix of the block list starting at that block ([] = null).
-/

/-- race_free iterator state: block pointer and slot index. -/
structure RfIter where
  ptr : List (List (Option Nat))
  index : Nat
  deriving Repr, DecidableEq

/-- Inner scan of the iterator skip loop within one block, starting at
slot i: while the slot is empty, ++index, and when index reaches
nodes_per_block give up on this block.  The while loop on index is
compiled with fuel d = K - i so that it is structural; the source
guards the loop by index == nodes_per_block, which starting from
index < K is first reached exactly when i + 1 = K. -/
def scanFrom (b : List (Option Nat)) (K : Nat) : Nat → Nat → Option Nat
  | 0, _ => none
  | d + 1, i =>
    if (b.getD i none).isSome then some i
    else if i + 1 < K then scanFrom b K d (i + 1)
    else none

/-- The skip loop of the iterator (race_free.hpp lines 99-105 and
118-124): for(; ptr && !ptr->nodes[index].value;) { ++index;
if(index == nodes_per_block) { ptr = ptr->next; index = 0; } },
computed on a (pointer, index) pair. -/
def skipEmpty (K : Nat) : List (List (Option Nat)) → Nat → RfIter
  | [], i => ⟨[], i⟩
  | b :: rest, i =>
    match scanFrom b K (K - i) i with
    | some j => ⟨b :: rest, j⟩
    | none => skipEmpty K rest 0

/-- race_free::iterator_t::iterator_t(block * ptr) (race_free.hpp lines
98-106): the member ptr is initialised with the argument; the loop body
then advances the SHADOWING PARAMETER ptr and the member index, so on
return only the index component of the skip loop survives — the member
ptr still designates the original first block. -/
def beginIter (K : Nat) (bs : List (List (Option Nat))) : RfIter :=
  ⟨bs, (skipEmpty K bs 0).index⟩

/-- race_free::iterator_t::operator++ (race_free.hpp lines 116-126):
do { ++index; if(index == nodes_per_block) { ptr = ptr->next;
index = 0; } } while(ptr && !ptr->nodes[index].value) — one bump
followed by the skip loop, on the member fields. -/
def iterSucc (K : Nat) (it : RfIter) : RfIter :=
  match it.ptr with
  | [] => it
  | b :: rest =>
    if it.index + 1 = K then skipEmpty K rest 0
    else skipEmpty K (b :: rest) (it.index + 1)

/-- race_free::iterator_t::operator* (race_free.hpp lines 133-137):
returns ptr->nodes[index].value. -/
def iterDeref (it : RfIter) : Option Nat :=
  match it.ptr with
  | [] => none
  | b :: _ => b.getD it.index none

/-- race_free::end(): a default-constructed iterator (null block
pointer, index 0). -/
def endIter : RfIter := ⟨[], 0⟩

/-- C5: the claim fails on the code.  With nodes_per_block = 21 (the
race_free<std::size_t> instantiation), a fully empty first block and an
occupied slot 0 in the second block, the converting constructor leaves
the member ptr on the empty first block — begin() dereferences an empty
slot — although the skip loop it ran (on the shadowing parameter)
did reach the second block; and with a single fully empty block,
begin() differs from end() although no slot is occupied. -/
theorem c5_begin_iterator_bug :
    (beginIter 21 [List.replicate 21 none, some 5 :: List.replicate 20 none]).ptr
        = [List.replicate 21 none, some 5 :: List.replicate 20 none] ∧
    iterDeref (beginIter 21 [List.replicate 21 none, some 5 :: List.replicate 20 none])
        = none ∧
    (skipEmpty 21 [List.replicate 21 none, some 5 :: List.replicate 20 none] 0).ptr
        = [some 5 :: List.replicate 20 none] ∧
    beginIter 21 [List.replicate 21 none] ≠ endIter := by
  exact ⟨rfl, rfl, rfl, by decide⟩

/-
tls<T> (tls.hpp): internal::atomic_unordered_map, a fixed array of
bucket_count shard lists plus a traversal spine root.  Thread ids and
std::hash values are Nat; nodes are identified by allocation order
(nextId); local() is modelled sequentially, its CAS prepends succeeding
in one step.
-/

/-- A TLS node: its identity and the owner recorded at construction. -/
structure TlsNode where
  id : Nat
  owner : Nat
  deriving Repr, DecidableEq

/-- State of atomic_unordered_map: the shard array (modelled as a
function, only indices below bucket_count are ever used), the traversal
spine, and the allocation counter producing fresh node identities. -/
structure TlsState where
  buckets : Nat → List TlsNode
  root : List Nat
  nextId : Nat

/-- A freshly constructed map: all shard heads and the spine null. -/
def tlsInit : TlsState := ⟨fun _ => [], [], 0⟩

/-- bucket_list::local (tls.hpp lines 43-58): walk the shard list for a
node owned by the calling thread; on miss allocate and construct a node
and CAS-prepend it to the shard head. -/
def bucketLocal (bkt : List TlsNode) (t fresh : Nat) : TlsNode × Bool × List TlsNode :=
  match bkt.find? (fun nd => nd.owner == t) with
  | some nd => (nd, false, bkt)
  | none => (⟨fresh, t⟩, true, ⟨fresh, t⟩ :: bkt)

/-- atomic_unordered_map::local (tls.hpp lines 127-137): pick the shard
by hash(tid) % bucket_count, delegate to the bucket, and when the node
was newly created CAS-prepend it to the spine root. -/
def mapLocal (B : Nat) (hashF : Nat → Nat) (st : TlsState) (t : Nat) :
    (Nat × Bool) × TlsState :=
  match bucketLocal (st.buckets (hashF t % B)) t st.nextId with
  | (nd, true, bkt2) =>
    ((nd.id, true),
     ⟨Function.update st.buckets (hashF t % B) bkt2, nd.id :: st.root, st.nextId + 1⟩)
  | (nd, false, bkt2) =>
    ((nd.id, false), ⟨Function.update st.buckets (hashF t % B) bkt2, st.root, st.nextId⟩)

/-- atomic_unordered_map::clear (tls.hpp lines 139-143): clear every
bucket below bucket_count, then null the spine root. -/
def mapClear (B : Nat) (st : TlsState) : TlsState :=
  ⟨fun i => if i < B then [] else st.buckets i, [], st.nextId⟩

/-- Events a single-threaded interleaving applies to the container:
a local() call by thread t, or clear(). -/
inductive TlsEv where
  | call (t : Nat)
  | clear

/-- The (id, created) results handed to thread t's local() calls along a
trace, chunked into clear-delimited epochs (one chunk per epoch, in
order, each chunk in call order). -/
def resultsFor (B : Nat) (hashF : Nat → Nat) (t : Nat) :
    List TlsEv → TlsState → List (List (Nat × Bool))
  | [], _ => [[]]
  | .call u :: evs, st =>
    let r := mapLocal B hashF st u
    let rest := resultsFor B hashF t evs r.2
    if u = t then
      match rest with
      | [] => [[r.1]]
      | c :: cs => (r.1 :: c) :: cs
    else rest
  | .clear :: evs, st => [] :: resultsFor B hashF t evs (mapClear B st)

/-- The node id thread t's shard currently associates with t. -/
def lookupT (B : Nat) (hashF : Nat → Nat) (st : TlsState) (t : Nat) : Option Nat :=
  ((st.buckets (hashF t % B)).find? (fun nd => nd.owner == t)).map TlsNode.id

theorem mapLocal_hit (B : Nat) (hashF : Nat → Nat) (st : TlsState) (t i : Nat)
    (h : lookupT B hashF st t = some i) :
    (mapLocal B hashF st t).1 = (i, false) ∧
    lookupT B hashF (mapLocal B hashF st t).2 t = some i := by
  rcases hf : (st.buckets (hashF t % B)).find? (fun nd => nd.owner == t) with _ | nd
  · rw [lookupT, hf] at h
    cases h
  · rw [lookupT, hf] at h
    have hid : nd.id = i := by
      simpa using h
    have hm : mapLocal B hashF st t
        = ((nd.id, false),
           ⟨Function.update st.buckets (hashF t % B) (st.buckets (hashF t % B)),
            st.root, st.nextId⟩) := by
      unfold mapLocal bucketLocal
      rw [hf]
    rw [hm, hid]
    refine ⟨rfl, ?_⟩
    show lookupT B hashF ⟨_, _, _⟩ t = some i
    unfold lookupT
    rw [Function.update_eq_self]
    show ((st.buckets (hashF t % B)).find? (fun nd => nd.owner == t)).map TlsNode.id
      = some i
    rw [hf]
    simpa using hid

theorem mapLocal_miss (B : Nat) (hashF : Nat → Nat) (st : TlsState) (t : Nat)
    (h : lookupT B hashF st t = none) :
    (mapLocal B hashF st t).1 = (st.nextId, true) ∧
    lookupT B hashF (mapLocal B hashF st t).2 t = some st.nextId := by
  rcases hf : (st.buckets (hashF t % B)).find? (fun nd => nd.owner == t) with _ | nd
  · have hm : mapLocal B hashF st t
        = ((st.nextId, true),
           ⟨Function.update st.buckets (hashF t % B)
              (⟨st.nextId, t⟩ :: st.buckets (hashF t % B)),
            st.nextId :: st.root, st.nextId + 1⟩) := by
      unfold mapLocal bucketLocal
      rw [hf]
    rw [hm]
    refine ⟨rfl, ?_⟩
    show (Function.update st.buckets (hashF t % B)
        (⟨st.nextId, t⟩ :: st.buckets (hashF t % B)) (hashF t % B) |>.find?
          (fun nd => nd.owner == t)).map TlsNode.id = some st.nextId
    rw [Function.update_same, List.find?_cons_of_pos _ (by simp)]
    rfl
  · rw [lookupT, hf] at h
    cases h

theorem mapLocal_other (B : Nat) (hashF : Nat → Nat) (st : TlsState) (t u : Nat)
    (hu : u ≠ t) :
    lookupT B hashF (mapLocal B hashF st u).2 t = lookupT B hashF st t := by
  rcases hf : (st.buckets (hashF u % B)).find? (fun nd => nd.owner == u) with _ | nd
  · have hm : (mapLocal B hashF st u).2
        = ⟨Function.update st.buckets (hashF u % B)
            (⟨st.nextId, u⟩ :: st.buckets (hashF u % B)),
           st.nextId :: st.root, st.nextId + 1⟩ := by
      unfold mapLocal bucketLocal
      rw [hf]
    rw [hm]
    unfold lookupT
    by_cases hind : hashF u % B = hashF t % B
    · rw [show (⟨Function.update st.buckets (hashF u % B)
          (⟨st.nextId, u⟩ :: st.buckets (hashF u % B)),
          st.nextId :: st.root, st.nextId + 1⟩ : TlsState).buckets = Function.update st.buckets
          (hashF u % B) (⟨st.nextId, u⟩ :: st.buckets (hashF u % B)) from rfl,
        ← hind, Function.update_same,
        List.find?_cons_of_neg _ (by simp [hu]), hind]
    · show (Function.update st.buckets (hashF u % B)
          (⟨st.nextId, u⟩ :: st.buckets (hashF u % B)) (hashF t % B) |>.find?
            (fun nd => nd.owner == t)).map TlsNode.id = _
      rw [Function.update_noteq (fun hh => hind hh.symm)]
  · have hm : (mapLocal B hashF st u).2
        = ⟨Function.update st.buckets (hashF u % B) (st.buckets (hashF u % B)),
           st.root, st.nextId⟩ := by
      unfold mapLocal bucketLocal
      rw [hf]
    rw [hm]
    unfold lookupT
    rw [show (⟨Function.update st.buckets (hashF u % B) (st.buckets (hashF u % B)),
        st.root, st.nextId⟩ : TlsState).buckets
        = Function.update st.buckets (hashF u % B) (st.buckets (hashF u % B)) from rfl,
      Function.update_eq_self]

theorem mapClear_lookup (B : Nat) (hashF : Nat → Nat) (st : TlsState) (t : Nat)
    (hB : 0 < B) : lookupT B hashF (mapClear B st) t = none := by
  unfold lookupT mapClear
  rw [show ((⟨fun i => if i < B then [] else st.buckets i, [], st.nextId⟩ :
      TlsState).buckets (hashF t % B)) = if hashF t % B < B then [] else
      st.buckets (hashF t % B) from rfl,
    if_pos (Nat.mod_lt _ hB)]
  rfl

theorem resultsFor_ne_nil (B : Nat) (hashF : Nat → Nat) (t : Nat) :
    ∀ (evs : List TlsEv) (st : TlsState), resultsFor B hashF t evs st ≠ [] := by
  intro evs
  induction evs with
  | nil =>
    intro st h
    cases h
  | cons ev evs ih =>
    cases ev with
    | call u =>
      intro st
      show (if u = t then _ else _) ≠ []
      by_cases hu : u = t
      · rw [if_pos hu]
        rcases hres : resultsFor B hashF t evs (mapLocal B hashF st u).2 with _ | ⟨c, cs⟩
        · simp
        · simp
      · rw [if_neg hu]
        exact ih _
    | clear =>
      intro st h
      cases h

/-- An epoch chunk is good when every call in it returned the same node
id and created was true exactly on the first call of the epoch. -/
def GoodChunk (c : List (Nat × Bool)) : Prop :=
  ∃ i, c = (List.range c.length).map (fun k => (i, k == 0))

/-- Ties the thread's current shard lookup state to the chunks still to
be produced: while the thread already owns a node i, the current epoch
only re-reads it (same id, created false); otherwise, and in every later
epoch, the full created-first pattern appears. -/
def ChunksGood (look : Option Nat) : List (List (Nat × Bool)) → Prop
  | [] => False
  | c :: cs =>
    (match look with
     | none => GoodChunk c
     | some i => c = List.replicate c.length (i, false)) ∧
    ∀ c2 ∈ cs, GoodChunk c2

theorem goodChunk_pattern (i n : Nat) :
    GoodChunk ((i, true) :: List.replicate n (i, false)) := by
  refine ⟨i, ?_⟩
  have hlen : ((i, true) :: List.replicate n (i, false)).length = n + 1 := by simp
  rw [hlen, List.range_succ_eq_map, List.map_cons, List.map_map]
  refine congrArg₂ _ rfl ?_
  symm
  rw [List.eq_replicate_iff]
  refine ⟨by simp, ?_⟩
  intro b hb
  rcases List.mem_map.mp hb with ⟨k, _, rfl⟩
  rfl

theorem resultsFor_good (B : Nat) (hashF : Nat → Nat) (t : Nat) (hB : 0 < B) :
    ∀ (evs : List TlsEv) (st : TlsState),
      ChunksGood (lookupT B hashF st t) (resultsFor B hashF t evs st) := by
  intro evs
  induction evs with
  | nil =>
    intro st
    show ChunksGood (lookupT B hashF st t) [[]]
    refine ⟨?_, by intro c2 hc2; cases hc2⟩
    rcases lookupT B hashF st t with _ | i
    · exact ⟨0, rfl⟩
    · rfl
  | cons ev evs ih =>
    cases ev with
    | clear =>
      intro st
      show ChunksGood (lookupT B hashF st t)
        ([] :: resultsFor B hashF t evs (mapClear B st))
      have h := ih (mapClear B st)
      rw [mapClear_lookup B hashF st t hB] at h
      refine ⟨?_, ?_⟩
      · rcases lookupT B hashF st t with _ | i
        · exact ⟨0, rfl⟩
        · rfl
      · rcases hres : resultsFor B hashF t evs (mapClear B st) with _ | ⟨c, cs⟩
        · exact absurd hres (resultsFor_ne_nil B hashF t evs _)
        · rw [hres] at h
          intro c2 hc2
          rcases List.mem_cons.mp hc2 with rfl | hmem
          · exact h.1
          · exact h.2 c2 hmem
    | call u =>
      intro st
      by_cases hu : u = t
      · subst hu
        rcases hres : resultsFor B hashF u evs (mapLocal B hashF st u).2 with _ | ⟨c, cs⟩
        · exact absurd hres (resultsFor_ne_nil B hashF u evs _)
        · have hval : resultsFor B hashF u (.call u :: evs) st
              = ((mapLocal B hashF st u).1 :: c) :: cs := by
            simp only [resultsFor]
            rw [if_pos trivial, hres]
          rw [hval]
          have h := ih (mapLocal B hashF st u).2
          rw [hres] at h
          rcases hlook : lookupT B hashF st u with _ | i
          · obtain ⟨h1, h2⟩ := mapLocal_miss B hashF st u hlook
            rw [h2] at h
            refine ⟨?_, h.2⟩
            show GoodChunk ((mapLocal B hashF st u).1 :: c)
            rw [h1, h.1]
            exact goodChunk_pattern _ _
          · obtain ⟨h1, h2⟩ := mapLocal_hit B hashF st u i hlook
            rw [h2] at h
            refine ⟨?_, h.2⟩
            show ((mapLocal B hashF st u).1 :: c)
              = List.replicate ((mapLocal B hashF st u).1 :: c).length (i, false)
            rw [h1, h.1]
            simp [List.replicate_succ]
      · have hval : resultsFor B hashF t (.call u :: evs) st
            = resultsFor B hashF t evs (mapLocal B hashF st u).2 := by
          simp only [resultsFor]
          rw [if_neg hu]
        rw [hval]
        have h := ih (mapLocal B hashF st u).2
        rw [mapLocal_other B hashF st t u hu] at h
        exact h

/-- C1: along any sequence of local() calls (by any threads) and
clear()s on a fresh container, within each clear-delimited epoch every
local() call by a given thread returns the same element, and the created
flag is true on exactly the thread's first call of the epoch (so on the
very first call, again on the first call after each clear(), and false
on every other call). -/
theorem c1_tls_identity_created (B : Nat) (hashF : Nat → Nat) (t : Nat) (hB : 0 < B)
    (evs : List TlsEv) :
    ∀ c ∈ resultsFor B hashF t evs tlsInit, GoodChunk c := by
  have h := resultsFor_good B hashF t hB evs tlsInit
  have hinit : lookupT B hashF tlsInit t = none := rfl
  rw [hinit] at h
  rcases hres : resultsFor B hashF t evs tlsInit with _ | ⟨c, cs⟩
  · exact absurd hres (resultsFor_ne_nil B hashF t evs _)
  · rw [hres] at h
    intro c2 hc2
    rcases List.mem_cons.mp hc2 with rfl | hmem
    · exact h.1
    · exact h.2 c2 hmem

/-- Witness for c1_tls_identity_created: one bucket, identity hash,
trace call 0, call 0, clear, call 0 — the first epoch chunk is
[(0, true), (0, false)] and it matches the created-first same-id
pattern. -/
theorem c1_tls_identity_created_witness :
    [(0, true), (0, false)] ∈
      resultsFor 1 (fun x => x) 0 [.call 0, .call 0, .clear, .call 0] tlsInit ∧
    GoodChunk [(0, true), (0, false)] := by
  have hmem : [(0, true), (0, false)] ∈
      resultsFor 1 (fun x => x) 0 [.call 0, .call 0, .clear, .call 0] tlsInit := by
    simp [resultsFor, mapLocal, bucketLocal, mapClear, tlsInit, List.find?]
  exact ⟨hmem, c1_tls_identity_created 1 (fun x => x) 0 (by decide)
    [.call 0, .call 0, .clear, .call 0] [(0, true), (0, false)] hmem⟩

/-
Ordering of atomic_unordered_map::clear (tls.hpp lines 60-67 and
139-143), as the sequence of observable events it performs: for each
bucket index in order, bucket_list::clear swaps that bucket's head to
null and then destroys and frees each node of the exchanged list; only
after the last bucket is processed is the spine root set to null.
-/

/-- Observable events of clear: a shard head swapped to null, a node
destroyed and freed, or the spine root swapped to null. -/
inductive ClearEv where
  | swapBucket (i : Nat)
  | freeNode (n : Nat)
  | swapRoot
  deriving Repr, DecidableEq

/-- bucket_list::clear (tls.hpp lines 60-67): head.exchange(nullptr),
then destroy and deallocate each node of the exchanged list in order. -/
def bucketClearTrace (i : Nat) (bkt : List Nat) : List ClearEv :=
  ClearEv.swapBucket i :: bkt.map ClearEv.freeNode

/-- atomic_unordered_map::clear (tls.hpp lines 139-143): run
bucket_list::clear on buckets 0..B-1 in index order, then null the
spine root. -/
def mapClearTrace (B : Nat) (bks : Nat → List Nat) : List ClearEv :=
  (List.range B).flatMap (fun i => bucketClearTrace i (bks i)) ++ [ClearEv.swapRoot]

/-- Is the event a node free? -/
def isFree : ClearEv → Bool
  | .freeNode _ => true
  | _ => false

/-- Is the event a head swap (shard head or spine root)? -/
def isSwap : ClearEv → Bool
  | .freeNode _ => false
  | _ => true

/-- The ordering the claim asserts: all head swaps (shards and spine)
happen before any node is freed — once the first free occurs, no swap
follows. -/
def headsBeforeFrees (tr : List ClearEv) : Bool :=
  (tr.dropWhile (fun e => !isFree e)).all (fun e => !isSwap e)

/-- C7 counterexample: with two buckets of one node each, clear frees
bucket 0's node before it swaps bucket 1's head (and before the spine
root is nulled), so the claimed all-swaps-before-any-free ordering does
not hold on the code. -/
theorem c7_clear_order_counterexample :
    mapClearTrace 2 (fun i => if i = 0 then [10] else if i = 1 then [11] else [])
      = [.swapBucket 0, .freeNode 10, .swapBucket 1, .freeNode 11, .swapRoot] ∧
    headsBeforeFrees
      (mapClearTrace 2 (fun i => if i = 0 then [10] else if i = 1 then [11] else []))
      = false := by
  exact ⟨rfl, rfl⟩

theorem flatMap_decompose {α β : Type} (f : α → List β) (l : List α) (a : α)
    (ha : a ∈ l) : ∃ l1 l2, l.flatMap f = l1 ++ f a ++ l2 := by
  rcases List.append_of_mem ha with ⟨s, u, rfl⟩
  exact ⟨s.flatMap f, u.flatMap f, by simp⟩

/-- C7 (amended): clear processes the shards in index order, swapping
each shard's head to null immediately before destroying and freeing that
shard's nodes (so every shard head is emptied before its own nodes are
freed, though nodes of earlier shards are freed before later shards are
swapped); the spine root swap is the last event; and after clear()
returns every bucket head and the spine head are null. -/
theorem c7_clear_order (B : Nat) (bks : Nat → List Nat) (st : TlsState) :
    (∀ i, i < B → ∃ l1 l2, mapClearTrace B bks
        = l1 ++ (ClearEv.swapBucket i :: (bks i).map ClearEv.freeNode) ++ l2) ∧
    (mapClearTrace B bks).getLast? = some ClearEv.swapRoot ∧
    (∀ i, i < B → (mapClear B st).buckets i = []) ∧
    (mapClear B st).root = [] := by
  refine ⟨?_, ?_, ?_, rfl⟩
  · intro i hi
    rcases flatMap_decompose (fun i => bucketClearTrace i (bks i)) (List.range B) i
      (List.mem_range.mpr hi) with ⟨l1, l2, hdec⟩
    refine ⟨l1, l2 ++ [ClearEv.swapRoot], ?_⟩
    rw [mapClearTrace, hdec, bucketClearTrace]
    simp
  · rw [mapClearTrace]
    exact List.getLast?_concat _
  · intro i hi
    show (if i < B then [] else st.buckets i) = []
    rw [if_pos hi]

/-- Witness for c7_clear_order at B = 1 with one node: the trace is
swap bucket 0, free node, swap root, and clear leaves bucket 0 and the
root null. -/
theorem c7_clear_order_witness :
    (mapClearTrace 1 (fun _ => [10])).getLast? = some ClearEv.swapRoot ∧
    (mapClear 1 ⟨fun _ => [⟨10, 0⟩], [10], 1⟩).buckets 0 = [] ∧
    (mapClear 1 ⟨fun _ => [⟨10, 0⟩], [10], 1⟩).root = [] := by
  have h := c7_clear_order 1 (fun _ => [10]) ⟨fun _ => [⟨10, 0⟩], [10], 1⟩
  exact ⟨h.2.1, h.2.2.1 0 (by decide), h.2.2.2⟩

/-
Exception behaviour (tls.hpp lines 48-54, object_pool.hpp lines
195-216): the allocator may throw on allocate, and construction (the
initializer for a TLS node, the default constructors of a block's T
values for the pool) may throw; both sites deallocate in a catch block
and rethrow, before anything is linked or registered.  Outcomes are
modelled explicitly, and each operation reports the raw allocations and
deallocations it performed.
-/

/-- Outcome of an allocation + construction attempt. -/
inductive AllocOutcome where
  | ok
  | allocThrows
  | ctorThrows
  deriving Repr, DecidableEq

/-- bucket_list::local miss path (tls.hpp lines 48-57): allocate (on
throw nothing was performed), construct via the initializer (on throw
the catch deallocates and rethrows), and only on success CAS-prepend the
node.  Returns the propagated error or the new node id, the resulting
bucket list, and the (allocation, deallocation) counts. -/
def tlsLocalMiss (o : AllocOutcome) (bkt : List TlsNode) (t fresh : Nat) :
    Except Unit Nat × List TlsNode × Nat × Nat :=
  match o with
  | .allocThrows => (.error (), bkt, 0, 0)
  | .ctorThrows => (.error (), bkt, 1, 1)
  | .ok => (.ok fresh, ⟨fresh, t⟩ :: bkt, 1, 0)

/-- object_pool::allocate_new_block with fallible allocation and
construction (object_pool.hpp lines 195-216): allocate (on throw nothing
was performed), construct the block (on throw the catch deallocates the
raw block and rethrows), and only on success register the block, link
its nodes and publish them.  Returns the propagated error or the handle
node, the resulting pool state, and the (allocation, deallocation)
counts. -/
def allocateNewBlockEx (o : AllocOutcome) (st : PoolMem) (old : Option Nat × Nat)
    (base K dflt : Nat) : Except Unit Nat × PoolMem × Nat × Nat :=
  match o with
  | .allocThrows => (.error (), st, 0, 0)
  | .ctorThrows => (.error (), st, 1, 1)
  | .ok => (.ok (allocateNewBlock st old base K dflt).2,
            (allocateNewBlock st old base K dflt).1, 1, 0)

/-- C6: when the allocator fails during TLS node allocation or pool
block allocation, or construction (the initializer / the block's value
constructors) throws, the exception propagates to the caller and the
container is unchanged — the bucket list, the stack top and tag, the
per-node memory and the registered block list stay exactly as they were,
so no partially constructed node is linked and no block is registered —
and every allocation performed was deallocated again (the memory is
returned). -/
theorem c6_allocation_failure_safety (o : AllocOutcome) (ho : o ≠ .ok)
    (bkt : List TlsNode) (t fresh : Nat) (st : PoolMem) (old : Option Nat × Nat)
    (base K dflt : Nat) :
    (tlsLocalMiss o bkt t fresh).1 = .error () ∧
    (tlsLocalMiss o bkt t fresh).2.1 = bkt ∧
    (tlsLocalMiss o bkt t fresh).2.2.1 = (tlsLocalMiss o bkt t fresh).2.2.2 ∧
    (allocateNewBlockEx o st old base K dflt).1 = .error () ∧
    (allocateNewBlockEx o st old base K dflt).2.1 = st ∧
    (allocateNewBlockEx o st old base K dflt).2.2.1
      = (allocateNewBlockEx o st old base K dflt).2.2.2 := by
  cases o with
  | ok => exact absurd rfl ho
  | allocThrows => exact ⟨rfl, rfl, rfl, rfl, rfl, rfl⟩
  | ctorThrows => exact ⟨rfl, rfl, rfl, rfl, rfl, rfl⟩

/-- Witness for c6_allocation_failure_safety: a throwing constructor on
a concrete one-node bucket and an empty pool leaves both unchanged with
balanced allocation counts. -/
theorem c6_allocation_failure_safety_witness :
    (tlsLocalMiss .ctorThrows [⟨0, 7⟩] 7 1).2.1 = [⟨0, 7⟩] ∧
    (allocateNewBlockEx .ctorThrows ⟨none, 0, fun _ => none, fun _ => 0, []⟩
      (none, 0) 100 3 0).2.1 = ⟨none, 0, fun _ => none, fun _ => 0, []⟩ :=
  ⟨(c6_allocation_failure_safety .ctorThrows (by decide) [⟨0, 7⟩] 7 1
      ⟨none, 0, fun _ => none, fun _ => 0, []⟩ (none, 0) 100 3 0).2.1,
   (c6_allocation_failure_safety .ctorThrows (by decide) [⟨0, 7⟩] 7 1
      ⟨none, 0, fun _ => none, fun _ => 0, []⟩ (none, 0) 100 3 0).2.2.2.2.1⟩

end P2774
